import Mathlib

/-!
Formal verification of the drainage-path simulation in MeshAnalysis
(file src/MeshDrainage.py, the "MeshDrainagePaths" component).

The geometric host library (Rhino) is external to the repository; its calls
are abstracted into a surface-oracle record (MeshGeo below), exactly as the
script only ever observes them:

* mesh.ClosestMeshPoint(q, 0.0)  — closest point on the mesh, or None
  (field closestMeshPoint : Pt -> Option Pt; the script reads only
  meshPt.Point out of the returned MeshPoint object);
* the plane built at (meshPt.Point, mesh.NormalAt(meshPt)) is used for two
  things only: its Origin (= meshPt.Point) is recorded / elevation-checked,
  and the VectorAngle/Rotate/Translate triple of lines 54-56 moves the
  origin by stepSize along the unit projection of the global -Z axis onto
  the tangent plane.  That net displacement is the field
  advance : Pt -> stepSize -> Pt of the oracle record.

All coordinates are exact rationals, so every definition is executable and
every concrete run can be checked by the kernel.
-/

/-- Point (or vector) in 3-space with exact rational coordinates,
modelling Rhino.Geometry.Point3d / Vector3d as the script uses them. -/
structure Pt where
  x : ℚ
  y : ℚ
  z : ℚ
deriving DecidableEq, Repr

/-- Componentwise sum of two points/vectors. -/
def Pt.add (a b : Pt) : Pt := ⟨a.x + b.x, a.y + b.y, a.z + b.z⟩

/-- Scalar multiple of a point/vector. -/
def Pt.smul (c : ℚ) (a : Pt) : Pt := ⟨c * a.x, c * a.y, c * a.z⟩

/-- Componentwise difference of two points/vectors. -/
def Pt.sub (a b : Pt) : Pt := ⟨a.x - b.x, a.y - b.y, a.z - b.z⟩

/-- Euclidean dot product. -/
def Pt.dot (a b : Pt) : ℚ := a.x * b.x + a.y * b.y + a.z * b.z

/-- Surface oracle: the read-only view of the Rhino mesh that
MeshDrainage.py observes.  vertices models Mesh.Vertices.ToPoint3dArray()
(line 74); closestMeshPoint models mesh.ClosestMeshPoint(q, 0.0) (line 44,
None when no projection exists); advance p s is the net effect of lines
54-56 (rotate the tangent plane at p so its XAxis is the unit tangent-plane
projection of -ZAxis, then translate the origin by XAxis*s): the next
particle query position one step of length s downhill from p. -/
structure MeshGeo where
  vertices : List Pt
  closestMeshPoint : Pt → Option Pt
  advance : Pt → ℚ → Pt

/-- Elevation test of line 49: particles[-1].Z compared with the candidate
origin p; true when the candidate is strictly above the last recorded
point.  On an empty trail Python would raise IndexError, but line 49 only
reaches the comparison when i is nonzero, and (see drainIter) the origin is
unchanged until the first successful projection, so a deterministic oracle
makes (i nonzero, empty trail) unreachable; false is returned there. -/
def zGtLast (particles : List Pt) (p : Pt) : Bool :=
  match particles.getLast? with
  | some q => decide (q.z < p.z)
  | none => false

/-- Loop body of drainPath, lines 41-56 of MeshDrainage.py.  i is the
iteration counter of "for i in range(maxSteps)", fuel the remaining
iterations, origin the current particle plane origin (paPl.Origin),
particles the recorded trail.  When ClosestMeshPoint returns None the
body does nothing and the loop continues (there is no break in that case);
when it returns a point p, line 49 breaks out of the loop if i is nonzero
and p lies strictly above the last recorded point, and otherwise records p
and moves the particle one step down the slope (lines 53-56). -/
def drainIter (geo : MeshGeo) (stepSize : ℚ) : ℕ → ℕ → Pt → List Pt → List Pt
  | _, 0, _, particles => particles
  | i, fuel + 1, origin, particles =>
    match geo.closestMeshPoint origin with
    | none => drainIter geo stepSize (i + 1) fuel origin particles
    | some p =>
      if i ≠ 0 ∧ zGtLast particles p = true then
        particles
      else
        drainIter geo stepSize (i + 1) fuel (geo.advance p stepSize) (particles ++ [p])

/-- Task function drainPath of lines 36-57: trace one particle from start
point pt for up to maxSteps iterations, returning its recorded trail. -/
def drainPath (geo : MeshGeo) (maxSteps : ℕ) (stepSize : ℚ) (pt : Pt) : List Pt :=
  drainIter geo stepSize 0 maxSteps pt []

/-- Lines 58-61: a trail of more than one point is appended to the shared
result list as a polyline (modelled as its point list); shorter trails are
dropped. -/
def appendDrain (geo : MeshGeo) (maxSteps : ℕ) (stepSize : ℚ)
    (acc : List (List Pt)) (pt : Pt) : List (List Pt) :=
  let particles := drainPath geo maxSteps stepSize pt
  if 1 < particles.length then acc ++ [particles] else acc

/-- makeDrainMeshPaths, lines 27-69.  In the non-threaded branch (line 67)
the tasks run left to right over startPoints, appending each emitted path
in start-point order.  In the threaded branch (line 65)
Tasks.Parallel.ForEach runs them concurrently and each task appends to the
shared drainPaths list when it completes, so the append order is the
scheduler's completion order; that order is made explicit here as the
schedule argument, the list of start-point indices in completion order (a
real run uses some permutation of all indices). -/
def makeDrainMeshPaths (geo : MeshGeo) (startPoints : List Pt) (maxSteps : ℕ)
    (stepSize : ℚ) (threaded : Bool) (schedule : List ℕ) : List (List Pt) :=
  if threaded then
    (schedule.filterMap fun k => startPoints[k]?).foldl
      (appendDrain geo maxSteps stepSize) []
  else
    startPoints.foldl (appendDrain geo maxSteps stepSize) []

/-- Modelled from the spec: the Python standard library pair
random.seed(RandomSeed) / random.sample(population, k) used at lines 77-78
is external to the repository; the spec describes it as choosing k distinct
elements without replacement, deterministically from the seed.  lcg is the
deterministic pseudo-random state transition of that model. -/
def lcg (s : ℕ) : ℕ := (1103515245 * s + 12345) % 2 ^ 31

/-- Modelled from the spec: selection without replacement — k times, draw a
pseudo-random index into the remaining population, emit that element and
remove it.  The empty-population branch is unreachable when k is at most
the population size (Python's random.sample would already have raised). -/
def sampleAux : ℕ → ℕ → List Pt → List Pt
  | _, 0, _ => []
  | s, k + 1, pop =>
    if hpop : pop.length = 0 then []
    else
      let s' := lcg s
      let idx := s' % pop.length
      pop.get ⟨idx, Nat.mod_lt _ (Nat.pos_of_ne_zero hpop)⟩ ::
        sampleAux s' k (pop.eraseIdx idx)

/-- Modelled from the spec: random.seed(seed) followed by
random.sample(pop, k) (lines 77-78).  Python raises ValueError when k is
negative or exceeds the population size (modelled as none = uncaught
exception); otherwise it returns k elements drawn without replacement. -/
def randomSample (seed : ℕ) (pop : List Pt) (k : ℤ) : Option (List Pt) :=
  if 0 ≤ k ∧ k ≤ (pop.length : ℤ) then some (sampleAux seed k.toNat pop) else none

/-- Module entry, lines 71-84: when a mesh is supplied, take its vertex
array, clamp ParticleCount down to the vertex count (lines 75-76), sample
that many start points with the seeded sampler (lines 77-78), and run
makeDrainMeshPaths (line 81); the GH_Curve conversion of line 82 is
presentational and the paths are returned as point lists.  When no mesh is
supplied the output is the empty list (lines 83-84).  none models an
uncaught sampling exception.  int(MaxSteps) may be negative, in which case
range(maxSteps) is empty, hence the toNat clamp. -/
def runComponent (mesh : Option MeshGeo) (particleCount maxSteps : ℤ)
    (stepSize : ℚ) (randomSeed : ℕ) (threaded : Bool) (schedule : List ℕ) :
    Option (List (List Pt)) :=
  match mesh with
  | none => some []
  | some m =>
    let vts := m.vertices
    let pc := if particleCount > (vts.length : ℤ) then (vts.length : ℤ) else particleCount
    match randomSample randomSeed vts pc with
    | none => none
    | some pts => some (makeDrainMeshPaths m pts maxSteps.toNat stepSize threaded schedule)

/-- Orthogonal projection of q onto the plane through the origin with unit
normal nh: the ClosestMeshPoint of an unbounded planar mesh. -/
def planeProj (nh : Pt) (q : Pt) : Pt := q.sub (Pt.smul (q.dot nh) nh)

/-- Concrete surface oracle for an unbounded planar mesh through the origin
with unit normal nh: closest point is the orthogonal projection, and the
step of lines 54-56 moves by stepSize along u, the unit tangent-plane
projection of the global -Z axis.  For a horizontal plane that projection
is the zero vector, Rhino's VectorAngle is undefined (unset value) and the
subsequent rotation leaves the XAxis at some arbitrary in-plane unit
direction; u then stands for that arbitrary horizontal direction. -/
def planeGeo (nh u : Pt) (verts : List Pt) : MeshGeo :=
  { vertices := verts
    closestMeshPoint := fun q => some (planeProj nh q)
    advance := fun p s => p.add (Pt.smul s u) }

/-- Flat, perfectly horizontal plane z = 0; the downhill projection of -Z
is zero there, and the arbitrary in-plane direction the unset rotation
leaves is taken to be +X. -/
def flatGeo : MeshGeo := planeGeo ⟨0, 0, 1⟩ ⟨1, 0, 0⟩ []

/-- Sloped plane 3x + 4z = 0 (elevation strictly decreasing along +x),
with unit normal (3/5, 0, 4/5) and unit downhill direction (4/5, 0, -3/5);
its two listed vertices lie on the plane. -/
def slopeGeo : MeshGeo :=
  planeGeo ⟨3/5, 0, 4/5⟩ ⟨4/5, 0, -3/5⟩ [⟨0, 0, 0⟩, ⟨100, 0, -75⟩]

/-- Degenerate oracle whose projection always succeeds at the fixed point
(0,0,1) and whose advance leaves the particle in place; used to exercise
single steps of the tracer. -/
def liftGeo : MeshGeo :=
  { vertices := []
    closestMeshPoint := fun _ => some ⟨0, 0, 1⟩
    advance := fun p _ => p }

/-- Oracle with an empty domain: every projection fails (ClosestMeshPoint
always returns None). -/
def noneGeo : MeshGeo :=
  { vertices := []
    closestMeshPoint := fun _ => none
    advance := fun p _ => p }

/-- The trail a particle records on a planar mesh: fuel points starting at
p, each one step s*u after the previous. -/
def planeTrail (u : Pt) (s : ℚ) : Pt → ℕ → List Pt
  | _, 0 => []
  | p, fuel + 1 => p :: planeTrail u s (p.add (Pt.smul s u)) fuel

/-! Step lemmas: the three possible outcomes of one loop iteration
(lines 41-56), as equations on drainIter. -/

/-- When ClosestMeshPoint returns None (line 45 falsy) the iteration does
nothing: the loop moves on with the same origin and trail. -/
theorem drainIter_none_step (geo : MeshGeo) (s : ℚ) (i k : ℕ) (origin : Pt)
    (particles : List Pt) (hq : geo.closestMeshPoint origin = none) :
    drainIter geo s i (k + 1) origin particles = drainIter geo s (i + 1) k origin particles := by
  simp [drainIter, hq]

/-- The break of lines 49-50: past the first iteration, a candidate
strictly above the last recorded point ends the trace with the trail
unchanged. -/
theorem drainIter_break (geo : MeshGeo) (s : ℚ) (i k : ℕ) (origin p : Pt)
    (particles : List Pt) (hq : geo.closestMeshPoint origin = some p)
    (hi : i ≠ 0) (hz : zGtLast particles p = true) :
    drainIter geo s i (k + 1) origin particles = particles := by
  simp [drainIter, hq, hi, hz]

/-- The record-and-advance branch of lines 51-56: on the first iteration,
or when the candidate is not strictly above the last recorded point, the
candidate is appended and the particle moves one step down the slope. -/
theorem drainIter_record (geo : MeshGeo) (s : ℚ) (i k : ℕ) (origin p : Pt)
    (particles : List Pt) (hq : geo.closestMeshPoint origin = some p)
    (h : i = 0 ∨ zGtLast particles p = false) :
    drainIter geo s i (k + 1) origin particles
      = drainIter geo s (i + 1) k (geo.advance p s) (particles ++ [p]) := by
  have hguard : ¬(i ≠ 0 ∧ zGtLast particles p = true) := by
    rcases h with h0 | hf
    · simp [h0]
    · simp [hf]
  simp only [drainIter, hq]
  rw [if_neg hguard]

/-! Plane-oracle geometry lemmas. -/

/-- A point on the plane projects to itself. -/
theorem planeProj_self (nh p : Pt) (hp : Pt.dot p nh = 0) : planeProj nh p = p := by
  unfold planeProj
  rw [hp]
  cases p with
  | mk x y z => simp [Pt.sub, Pt.smul]

/-- The projection of any point lies on the plane (unit normal). -/
theorem planeProj_dot (nh q : Pt) (hnn : Pt.dot nh nh = 1) :
    Pt.dot (planeProj nh q) nh = 0 := by
  have h : Pt.dot (planeProj nh q) nh = Pt.dot q nh - Pt.dot q nh * Pt.dot nh nh := by
    simp [planeProj, Pt.sub, Pt.smul, Pt.dot]; ring
  rw [h, hnn]; ring

/-- Stepping along an in-plane direction stays on the plane. -/
theorem step_dot (nh u p : Pt) (s : ℚ) (hp : Pt.dot p nh = 0) (hun : Pt.dot u nh = 0) :
    Pt.dot (p.add (Pt.smul s u)) nh = 0 := by
  have h : Pt.dot (p.add (Pt.smul s u)) nh = Pt.dot p nh + s * Pt.dot u nh := by
    simp [Pt.add, Pt.smul, Pt.dot]; ring
  rw [h, hp, hun]; ring

/-- Elevation change of one step. -/
theorem step_z (u p : Pt) (s : ℚ) : (p.add (Pt.smul s u)).z = p.z + s * u.z := by
  simp [Pt.add, Pt.smul]

/-- planeTrail produces exactly fuel points. -/
theorem planeTrail_length (u : Pt) (s : ℚ) :
    ∀ (n : ℕ) (p : Pt), (planeTrail u s p n).length = n := by
  intro n
  induction n with
  | zero => intro p; rfl
  | succ k ih => intro p; simp [planeTrail, ih]

/-- Head of a nonempty planeTrail is its start point. -/
theorem planeTrail_head (u : Pt) (s : ℚ) (p : Pt) (k : ℕ) :
    (planeTrail u s p (k + 1)).head? = some p := rfl

/-- Elevations along planeTrail never increase when the step does not go up. -/
theorem planeTrail_chain_le (u : Pt) (s : ℚ) (hsz : s * u.z ≤ 0) :
    ∀ (n : ℕ) (p : Pt), List.Chain' (fun a b : Pt => b.z ≤ a.z) (planeTrail u s p n) := by
  intro n
  induction n with
  | zero => intro p; simp [planeTrail]
  | succ k ih =>
    intro p
    rw [planeTrail, List.chain'_cons']
    refine ⟨?_, ih _⟩
    intro y hy
    rcases k with _ | m
    · simp [planeTrail] at hy
    · rw [planeTrail_head] at hy
      simp only [Option.mem_def, Option.some_inj] at hy
      subst hy
      rw [step_z]
      linarith

/-- Elevations along planeTrail strictly decrease when the step goes
strictly down. -/
theorem planeTrail_chain_lt (u : Pt) (s : ℚ) (hsz : s * u.z < 0) :
    ∀ (n : ℕ) (p : Pt), List.Chain' (fun a b : Pt => b.z < a.z) (planeTrail u s p n) := by
  intro n
  induction n with
  | zero => intro p; simp [planeTrail]
  | succ k ih =>
    intro p
    rw [planeTrail, List.chain'_cons']
    refine ⟨?_, ih _⟩
    intro y hy
    rcases k with _ | m
    · simp [planeTrail] at hy
    · rw [planeTrail_head] at hy
      simp only [Option.mem_def, Option.some_inj] at hy
      subst hy
      rw [step_z]
      linarith

/-- On a horizontal step direction every planeTrail point keeps the start
elevation. -/
theorem planeTrail_z (u : Pt) (s : ℚ) (huz : u.z = 0) :
    ∀ (n : ℕ) (p q : Pt), q ∈ planeTrail u s p n → q.z = p.z := by
  intro n
  induction n with
  | zero => intro p q hq; simp [planeTrail] at hq
  | succ k ih =>
    intro p q hq
    rw [planeTrail] at hq
    rcases List.mem_cons.mp hq with h | h
    · rw [h]
    · have := ih _ _ h
      rw [this, step_z, huz]
      ring

/-- On a planar oracle, once the particle sits on the plane and its last
recorded elevation is not below it, the remaining loop records one point
per iteration, marching down the line of steepest descent: the planeTrail
of the remaining fuel. -/
theorem planeGeo_drainIter (nh u : Pt) (vs : List Pt) (s : ℚ)
    (hun : Pt.dot u nh = 0) (hsz : s * u.z ≤ 0) :
    ∀ (fuel i : ℕ) (p : Pt), Pt.dot p nh = 0 →
      ∀ particles : List Pt, (∀ q, particles.getLast? = some q → p.z ≤ q.z) →
      drainIter (planeGeo nh u vs) s i fuel p particles
        = particles ++ planeTrail u s p fuel := by
  intro fuel
  induction fuel with
  | zero => intro i p hp particles hlast; simp [drainIter, planeTrail]
  | succ k ih =>
    intro i p hp particles hlast
    have hproj : (planeGeo nh u vs).closestMeshPoint p = some p := by
      simp [planeGeo, planeProj_self nh p hp]
    rw [drainIter_record (planeGeo nh u vs) s i k p p particles hproj ?hz]
    case hz =>
      rcases hq : particles.getLast? with _ | q
      · exact Or.inr (by simp [zGtLast, hq])
      · refine Or.inr ?_
        simp only [zGtLast, hq]
        simp [not_lt.mpr (hlast q hq)]
    have hadv : (planeGeo nh u vs).advance p s = p.add (Pt.smul s u) := rfl
    rw [hadv, ih (i + 1) (p.add (Pt.smul s u)) (step_dot nh u p s hp hun) (particles ++ [p]) ?hlast2]
    case hlast2 =>
      intro q hq
      rw [List.getLast?_concat] at hq
      cases hq
      rw [step_z]
      linarith
    rw [List.append_assoc]
    rfl

/-- drainPath on a planar oracle from an arbitrary start point: the first
iteration projects the raw start onto the plane and records it (the i = 0
exemption of line 49), after which the trail is the full steepest-descent
march; maxSteps points in total. -/
theorem planeGeo_drainPath (nh u : Pt) (vs : List Pt) (s : ℚ)
    (hnn : Pt.dot nh nh = 1) (hun : Pt.dot u nh = 0) (hsz : s * u.z ≤ 0)
    (q : Pt) (fuel : ℕ) :
    drainPath (planeGeo nh u vs) (fuel + 1) s q
      = planeTrail u s (planeProj nh q) (fuel + 1) := by
  unfold drainPath
  have hproj : (planeGeo nh u vs).closestMeshPoint q = some (planeProj nh q) := rfl
  rw [drainIter_record (planeGeo nh u vs) s 0 fuel q (planeProj nh q) [] hproj (Or.inl rfl)]
  have hadv : (planeGeo nh u vs).advance (planeProj nh q) s
      = (planeProj nh q).add (Pt.smul s u) := rfl
  rw [hadv, planeGeo_drainIter nh u vs s hun hsz fuel 1
    ((planeProj nh q).add (Pt.smul s u))
    (step_dot nh u (planeProj nh q) s (planeProj_dot nh q hnn) hun)
    ([] ++ [planeProj nh q]) ?hlast]
  case hlast =>
    intro r hr
    simp only [List.nil_append, List.getLast?_singleton, Option.some_inj] at hr
    cases hr
    rw [step_z]
    linarith
  simp [planeTrail]

/-! Generic invariants of the tracer loop, for an arbitrary oracle. -/

/-- The recording guard of line 49 preserves the no-uphill chain: whatever
the oracle, the trail drainIter builds never has a recorded point strictly
above its predecessor (the empty-trail branch is only ever entered while
i = 0). -/
theorem drainIter_chain (geo : MeshGeo) (s : ℚ) :
    ∀ (fuel i : ℕ) (origin : Pt) (particles : List Pt),
      List.Chain' (fun a b : Pt => b.z ≤ a.z) particles →
      (particles ≠ [] → i ≠ 0) →
      List.Chain' (fun a b : Pt => b.z ≤ a.z) (drainIter geo s i fuel origin particles) := by
  intro fuel
  induction fuel with
  | zero => intro i origin particles hch _; simpa [drainIter] using hch
  | succ k ih =>
    intro i origin particles hch hne
    rcases hq : geo.closestMeshPoint origin with _ | p
    · rw [drainIter_none_step geo s i k origin particles hq]
      exact ih (i + 1) origin particles hch (fun _ => Nat.succ_ne_zero i)
    · by_cases hguard : i ≠ 0 ∧ zGtLast particles p = true
      · rw [drainIter_break geo s i k origin p particles hq hguard.1 hguard.2]
        exact hch
      · have hrec : i = 0 ∨ zGtLast particles p = false := by
          by_cases hi : i = 0
          · exact Or.inl hi
          · refine Or.inr ?_
            cases hzb : zGtLast particles p
            · rfl
            · exact absurd ⟨hi, hzb⟩ hguard
        rw [drainIter_record geo s i k origin p particles hq hrec]
        apply ih (i + 1) _ _ ?_ (fun _ => Nat.succ_ne_zero i)
        rcases eq_or_ne particles [] with hnil | hnonnil
        · subst hnil; simp
        · have hz : zGtLast particles p = false := by
            rcases hrec with h0 | hf
            · exact absurd h0 (hne hnonnil)
            · exact hf
          rw [List.chain'_append]
          refine ⟨hch, List.chain'_singleton p, ?_⟩
          intro x hx y hy
          simp only [List.head?_cons, Option.mem_def, Option.some_inj] at hy
          subst hy
          simp only [Option.mem_def] at hx
          simp only [zGtLast, hx, decide_eq_false_iff_not, not_lt] at hz
          exact hz

/-- Whatever the oracle, every point drainIter ever records is a value the
oracle returned from a closest-point query (line 53 records paPl.Origin,
which line 46 set to meshPt.Point). -/
theorem drainIter_image (geo : MeshGeo) (s : ℚ) :
    ∀ (fuel i : ℕ) (origin : Pt) (particles : List Pt),
      (∀ q ∈ particles, ∃ x, geo.closestMeshPoint x = some q) →
      ∀ q ∈ drainIter geo s i fuel origin particles,
        ∃ x, geo.closestMeshPoint x = some q := by
  intro fuel
  induction fuel with
  | zero => intro i origin particles hsrc; simpa [drainIter] using hsrc
  | succ k ih =>
    intro i origin particles hsrc
    rcases hq : geo.closestMeshPoint origin with _ | p
    · rw [drainIter_none_step geo s i k origin particles hq]
      exact ih (i + 1) origin particles hsrc
    · by_cases hguard : i ≠ 0 ∧ zGtLast particles p = true
      · rw [drainIter_break geo s i k origin p particles hq hguard.1 hguard.2]
        exact hsrc
      · have hrec : i = 0 ∨ zGtLast particles p = false := by
          by_cases hi : i = 0
          · exact Or.inl hi
          · refine Or.inr ?_
            cases hzb : zGtLast particles p
            · rfl
            · exact absurd ⟨hi, hzb⟩ hguard
        rw [drainIter_record geo s i k origin p particles hq hrec]
        apply ih (i + 1)
        intro q hqmem
        rcases List.mem_append.mp hqmem with hmem | hmem
        · exact hsrc q hmem
        · rcases List.mem_singleton.mp hmem with rfl
          exact ⟨origin, hq⟩

/-! Result-collection lemmas for the fold of emitted paths. -/

/-- Every element of the collected result list either was already present
or is the trail of one of the processed start points, and then has more
than one point (line 59). -/
theorem mem_foldl_appendDrain (geo : MeshGeo) (ms : ℕ) (s : ℚ) :
    ∀ (pts : List Pt) (acc : List (List Pt)) (path : List Pt),
      path ∈ pts.foldl (appendDrain geo ms s) acc →
      path ∈ acc ∨ ∃ pt, path = drainPath geo ms s pt ∧ 1 < path.length := by
  intro pts
  induction pts with
  | nil => intro acc path h; exact Or.inl h
  | cons pt rest ih =>
    intro acc path h
    rcases ih _ _ h with hacc | hex
    · by_cases hlen : 1 < (drainPath geo ms s pt).length
      · simp only [appendDrain, if_pos hlen] at hacc
        rcases List.mem_append.mp hacc with hmem | hmem
        · exact Or.inl hmem
        · rcases List.mem_singleton.mp hmem with rfl
          exact Or.inr ⟨pt, rfl, hlen⟩
      · simp only [appendDrain, if_neg hlen] at hacc
        exact Or.inl hacc
    · exact Or.inr hex

/-- Each processed start point contributes at most one path. -/
theorem length_foldl_appendDrain (geo : MeshGeo) (ms : ℕ) (s : ℚ) :
    ∀ (pts : List Pt) (acc : List (List Pt)),
      (pts.foldl (appendDrain geo ms s) acc).length ≤ acc.length + pts.length := by
  intro pts
  induction pts with
  | nil => intro acc; simp
  | cons pt rest ih =>
    intro acc
    have h1 : (appendDrain geo ms s acc pt).length ≤ acc.length + 1 := by
      simp only [appendDrain]
      split
      · simp
      · simp
    calc ((pt :: rest).foldl (appendDrain geo ms s) acc).length
        = (rest.foldl (appendDrain geo ms s) (appendDrain geo ms s acc pt)).length := rfl
      _ ≤ (appendDrain geo ms s acc pt).length + rest.length := ih _
      _ ≤ acc.length + 1 + rest.length := by omega
      _ = acc.length + (pt :: rest).length := by simp [List.length_cons]; omega

/-! Sampler lemmas. -/

/-- The sampler returns min k n elements: k of them whenever the
population suffices. -/
theorem sampleAux_length : ∀ (k s : ℕ) (pop : List Pt),
    (sampleAux s k pop).length = min k pop.length := by
  intro k
  induction k with
  | zero => intro s pop; simp [sampleAux]
  | succ m ih =>
    intro s pop
    by_cases hpop : pop.length = 0
    · simp [sampleAux, hpop]
    · have hidx : lcg s % pop.length < pop.length := Nat.mod_lt _ (Nat.pos_of_ne_zero hpop)
      have herase : (pop.eraseIdx (lcg s % pop.length)).length + 1 = pop.length :=
        List.length_eraseIdx_add_one hidx
      rw [sampleAux, dif_neg hpop]
      simp only [List.length_cons, ih]
      omega

/-- The sampler draws without replacement: its output is a permutation of
a sublist of the population. -/
theorem sampleAux_subperm : ∀ (k s : ℕ) (pop : List Pt), List.Subperm (sampleAux s k pop) pop := by
  intro k
  induction k with
  | zero => intro s pop; simp [sampleAux]
  | succ m ih =>
    intro s pop
    by_cases hpop : pop.length = 0
    · simp [sampleAux, hpop]
    · have hidx : lcg s % pop.length < pop.length := Nat.mod_lt _ (Nat.pos_of_ne_zero hpop)
      rw [sampleAux, dif_neg hpop]
      have hperm : List.Perm (pop.erase (pop.get ⟨lcg s % pop.length, hidx⟩))
          (pop.eraseIdx (lcg s % pop.length)) := by
        simpa using List.erase_getElem hidx
      have hcons : List.Perm pop (pop.get ⟨lcg s % pop.length, hidx⟩
          :: pop.eraseIdx (lcg s % pop.length)) := by
        refine (List.perm_cons_erase (List.get_mem pop _ hidx)).trans ?_
        exact hperm.cons _
      have hsub : List.Subperm (sampleAux (lcg s) m (pop.eraseIdx (lcg s % pop.length)))
          (pop.eraseIdx (lcg s % pop.length)) := ih _ _
      exact ((List.subperm_cons _).mpr hsub).trans hcons.symm.subperm

/-- Sampling from a duplicate-free population yields distinct points. -/
theorem sampleAux_nodup (k s : ℕ) (pop : List Pt) (hpop : pop.Nodup) :
    (sampleAux s k pop).Nodup := by
  obtain ⟨l, hperm, hsub⟩ := sampleAux_subperm k s pop
  exact hperm.nodup_iff.mp (hsub.nodup hpop)

/-- In-range requests never fail. -/
theorem randomSample_ok (seed : ℕ) (pop : List Pt) (k : ℤ)
    (h0 : 0 ≤ k) (hk : k ≤ (pop.length : ℤ)) :
    randomSample seed pop k = some (sampleAux seed k.toNat pop) := by
  simp [randomSample, h0, hk]

/-- Every path the driver outputs, in either execution mode, is the trail
of some start point and has more than one point. -/
theorem mem_makeDrainMeshPaths (geo : MeshGeo) (startPoints : List Pt) (ms : ℕ) (s : ℚ)
    (threaded : Bool) (sched : List ℕ) (path : List Pt)
    (h : path ∈ makeDrainMeshPaths geo startPoints ms s threaded sched) :
    ∃ pt, path = drainPath geo ms s pt ∧ 1 < path.length := by
  unfold makeDrainMeshPaths at h
  split at h
  · rcases mem_foldl_appendDrain geo ms s _ _ _ h with habs | hex
    · simp at habs
    · exact hex
  · rcases mem_foldl_appendDrain geo ms s _ _ _ h with habs | hex
    · simp at habs
    · exact hex

/-- With a zero step budget every trail is empty, so nothing is ever
appended. -/
theorem foldl_appendDrain_zero (geo : MeshGeo) (s : ℚ) :
    ∀ (pts : List Pt) (acc : List (List Pt)),
      pts.foldl (appendDrain geo 0 s) acc = acc := by
  intro pts
  induction pts with
  | nil => intro acc; rfl
  | cons pt rest ih =>
    intro acc
    have hstep : appendDrain geo 0 s acc pt = acc := by
      simp [appendDrain, drainPath, drainIter]
    rw [List.foldl_cons, hstep]
    exact ih _

/-- The clamp of lines 75-76 composed with toNat is exactly
min particleCount N. -/
theorem clamp_toNat (pc : ℤ) (n : ℕ) (hpc : 0 ≤ pc) :
    (if pc > (n : ℤ) then (n : ℤ) else pc).toNat = min pc.toNat n := by
  split <;> omega

/-- Looking up start points along a schedule succeeds exactly on the
in-range indices. -/
theorem length_filterMap_getElem (pts : List Pt) :
    ∀ sched : List ℕ,
      (sched.filterMap fun k => pts[k]?).length
        = (sched.filter (fun k => decide (k < pts.length))).length := by
  intro sched
  induction sched with
  | nil => rfl
  | cons k rest ih =>
    by_cases hk : k < pts.length
    · rw [List.filterMap_cons, List.filter_cons]
      simp [List.getElem?_eq_getElem hk, hk, ih]
    · rw [List.filterMap_cons, List.filter_cons]
      simp [List.getElem?_eq_none (Nat.le_of_not_lt hk), hk, ih]

/-- The in-range indices of a duplicate-free schedule form a
sub-permutation of range n. -/
theorem filter_lt_subperm_range (n : ℕ) (sched : List ℕ) (hnd : sched.Nodup) :
    List.Subperm (sched.filter (fun k => decide (k < n))) (List.range n) := by
  apply List.subperm_of_subset
  · exact hnd.filter _
  · intro x hx
    rw [List.mem_range]
    simpa using List.of_mem_filter hx

/-- A duplicate-free schedule (each parallel task runs once, whatever its
completion rank) reaches at most one start point per index. -/
theorem sched_filterMap_length_le (pts : List Pt) (sched : List ℕ)
    (hnd : sched.Nodup) :
    (sched.filterMap fun k => pts[k]?).length ≤ pts.length := by
  rw [length_filterMap_getElem]
  have hle := (filter_lt_subperm_range pts.length sched hnd).length_le
  simpa using hle

/-- In either execution mode the driver emits at most one path per
sampled start point, provided the threaded completion schedule runs each
task once. -/
theorem length_makeDrainMeshPaths (geo : MeshGeo) (pts : List Pt) (ms : ℕ)
    (s : ℚ) (threaded : Bool) (sched : List ℕ) (hnd : sched.Nodup) :
    (makeDrainMeshPaths geo pts ms s threaded sched).length ≤ pts.length := by
  unfold makeDrainMeshPaths
  split
  · have h1 := length_foldl_appendDrain geo ms s (sched.filterMap fun k => pts[k]?) []
    have h2 := sched_filterMap_length_le pts sched hnd
    simp only [List.length_nil] at h1
    omega
  · have h1 := length_foldl_appendDrain geo ms s pts []
    simp only [List.length_nil] at h1
    omega

/-! Claim theorems. -/

set_option maxRecDepth 100000

/-- C1: the claim — that the driver's output list is ordered by the start
point's sampling index, identically and deterministically in sequential
and parallel modes — fails on the source.  On the sloped-plane oracle with
two start points, the sequential run (line 67) emits the two paths in
sampling order, but a parallel run (line 65) whose tasks complete in order
(1, 0) appends them reversed: the threaded output depends on the
scheduler's completion order, so it is neither index-ordered nor
reproducible across runs.  This evaluates the code at the failing input. -/
theorem C1_parallel_ordering_bug :
    makeDrainMeshPaths slopeGeo [⟨0, 0, 0⟩, ⟨100, 0, -75⟩] 2 1 false []
      = [[⟨0, 0, 0⟩, ⟨4/5, 0, -3/5⟩], [⟨100, 0, -75⟩, ⟨504/5, 0, -378/5⟩]] ∧
    makeDrainMeshPaths slopeGeo [⟨0, 0, 0⟩, ⟨100, 0, -75⟩] 2 1 true [1, 0]
      = [[⟨100, 0, -75⟩, ⟨504/5, 0, -378/5⟩], [⟨0, 0, 0⟩, ⟨4/5, 0, -3/5⟩]] ∧
    makeDrainMeshPaths slopeGeo [⟨0, 0, 0⟩, ⟨100, 0, -75⟩] 2 1 true [1, 0]
      ≠ makeDrainMeshPaths slopeGeo [⟨0, 0, 0⟩, ⟨100, 0, -75⟩] 2 1 true [0, 1] := by
  refine ⟨?_, ?_, ?_⟩ <;> with_unfolding_all decide

/-- C2 counterexample: the claim says a candidate whose elevation is
greater than OR EQUAL TO the last recorded elevation terminates the trace
without being recorded.  On the flat plane the second candidate (1,0,0)
has elevation equal to the last recorded (0,0,0), yet line 49's strict
test records it: the trail is [(0,0,0),(1,0,0)], not the unchanged
[(0,0,0)] the claim requires. -/
theorem C2_equal_elevation_recorded :
    drainPath flatGeo 2 1 ⟨0, 0, 0⟩ = [⟨0, 0, 0⟩, ⟨1, 0, 0⟩] ∧
    drainPath flatGeo 2 1 ⟨0, 0, 0⟩ ≠ [⟨0, 0, 0⟩] := by
  constructor <;> with_unfolding_all decide

/-- C2 amended: for i greater than 0 the trace terminates with the trail
unchanged only when the candidate elevation is STRICTLY greater than the
last recorded elevation (equal elevation is recorded); for i = 0 the check
is skipped and the first candidate is recorded unconditionally. -/
theorem C2_strict_uphill_terminates (geo : MeshGeo) (s : ℚ) (i fuel : ℕ)
    (origin origin0 p p0 : Pt) (particles : List Pt)
    (hq : geo.closestMeshPoint origin = some p)
    (hq0 : geo.closestMeshPoint origin0 = some p0)
    (hgt : zGtLast particles p = true) :
    drainIter geo s (i + 1) (fuel + 1) origin particles = particles ∧
    drainIter geo s 0 (fuel + 1) origin0 []
      = drainIter geo s 1 fuel (geo.advance p0 s) [p0] := by
  constructor
  · exact drainIter_break geo s (i + 1) fuel origin p particles hq (Nat.succ_ne_zero i) hgt
  · simpa using drainIter_record geo s 0 fuel origin0 p0 [] hq0 (Or.inl rfl)

/-- C2 amended, witness: on the constant oracle a strictly-higher
candidate above a trail at elevation 0 terminates with the trail
unchanged, and at i = 0 the candidate is recorded. -/
theorem C2_strict_uphill_terminates_witness :
    drainIter liftGeo 1 1 1 ⟨9, 9, 9⟩ [⟨0, 0, 0⟩] = [⟨0, 0, 0⟩] ∧
    drainIter liftGeo 1 0 1 ⟨9, 9, 9⟩ []
      = drainIter liftGeo 1 1 0 (liftGeo.advance ⟨0, 0, 1⟩ 1) [⟨0, 0, 1⟩] :=
  C2_strict_uphill_terminates liftGeo 1 0 0 ⟨9, 9, 9⟩ ⟨9, 9, 9⟩ ⟨0, 0, 1⟩ ⟨0, 0, 1⟩
    [⟨0, 0, 0⟩] rfl rfl (by decide)

/-- C9: when ClosestMeshPoint returns None for the current query point,
no point is recorded at that step or any later step of the trace — the
origin is never moved again, so the projection keeps failing and the trail
is returned exactly as it was; the driver completes normally. -/
theorem C9_no_projection_stops_recording (geo : MeshGeo) (s : ℚ) (origin : Pt)
    (h : geo.closestMeshPoint origin = none) (i fuel : ℕ) (particles : List Pt) :
    drainIter geo s i fuel origin particles = particles := by
  induction fuel generalizing i with
  | zero => simp [drainIter]
  | succ k ih =>
    rw [drainIter_none_step geo s i k origin particles h]
    exact ih _

/-- C9 witness: on the empty-domain oracle a trace leaves any trail
untouched. -/
theorem C9_witness : drainIter noneGeo 1 2 5 ⟨1, 2, 3⟩ [⟨0, 0, 9⟩] = [⟨0, 0, 9⟩] :=
  C9_no_projection_stops_recording noneGeo 1 ⟨1, 2, 3⟩ rfl 2 5 [⟨0, 0, 9⟩]

/-- C6: for every path the driver emits, in either execution mode, the
z-coordinates from the 2nd point onward never increase: line 49 breaks
before recording any candidate strictly above the last recorded point. -/
theorem C6_monotonic_descent (geo : MeshGeo) (startPoints : List Pt) (ms : ℕ)
    (s : ℚ) (threaded : Bool) (sched : List ℕ) (path : List Pt)
    (h : path ∈ makeDrainMeshPaths geo startPoints ms s threaded sched) :
    List.Chain' (fun a b : Pt => b.z ≤ a.z) path := by
  rcases mem_makeDrainMeshPaths geo startPoints ms s threaded sched path h
    with ⟨pt, rfl, -⟩
  exact drainIter_chain geo s ms 0 pt [] List.chain'_nil (fun hne => absurd rfl hne)

/-- C6 witness: a concrete emitted slope path is non-increasing in z. -/
theorem C6_witness :
    List.Chain' (fun a b : Pt => b.z ≤ a.z) [⟨0, 0, 0⟩, ⟨4/5, 0, -3/5⟩] :=
  C6_monotonic_descent slopeGeo [⟨0, 0, 0⟩] 2 1 false [] [⟨0, 0, 0⟩, ⟨4/5, 0, -3/5⟩]
    (by with_unfolding_all decide)

/-- C10: every point of every emitted path is a value the surface oracle
returned from a closest-point query — line 53 only ever records
paPl.Origin, which line 46 set to meshPt.Point; the raw start point and
the advanced (un-projected) positions are only ever used as query points. -/
theorem C10_points_are_oracle_projections (geo : MeshGeo) (startPoints : List Pt)
    (ms : ℕ) (s : ℚ) (threaded : Bool) (sched : List ℕ) (path : List Pt)
    (h : path ∈ makeDrainMeshPaths geo startPoints ms s threaded sched)
    (q : Pt) (hq : q ∈ path) :
    ∃ x, geo.closestMeshPoint x = some q := by
  rcases mem_makeDrainMeshPaths geo startPoints ms s threaded sched path h
    with ⟨pt, rfl, -⟩
  exact drainIter_image geo s ms 0 pt [] (by simp) q hq

/-- C10 witness: a concrete recorded point is in the image of the
slope-plane oracle. -/
theorem C10_witness : ∃ x, slopeGeo.closestMeshPoint x = some ⟨4/5, 0, -3/5⟩ :=
  C10_points_are_oracle_projections slopeGeo [⟨0, 0, 0⟩] 2 1 false []
    [⟨0, 0, 0⟩, ⟨4/5, 0, -3/5⟩] (by with_unfolding_all decide)
    ⟨4/5, 0, -3/5⟩ (by with_unfolding_all decide)

/-- C3 counterexample: the claim says particleCount, maxSteps or
stepLength out of range are rejected at the driver boundary and reported
as invalid-configuration failures.  The script has no such check: with
maxSteps = 0 (and likewise with a negative stepLength) the component runs
the whole pipeline and returns the ordinary empty output — no rejection,
no failure report. -/
theorem C3_no_validation_counterexample :
    runComponent (some slopeGeo) 2 0 1 7 false [] = some [] ∧
    runComponent (some slopeGeo) 2 5 (-1) 7 false [] = some [] := by
  constructor <;> with_unfolding_all decide

/-- C3 amended: no configuration validation exists at the driver
boundary.  maxSteps not positive silently yields the normal empty output
(the loop body never runs); a negative particleCount is not caught at the
boundary either — it surfaces inside sampling as an uncaught ValueError;
a nonpositive stepLength is used as-is. -/
theorem C3_amended_not_rejected (mesh : MeshGeo) (pc ms : ℤ) (s : ℚ) (seed : ℕ)
    (threaded : Bool) (sched : List ℕ) :
    (0 ≤ pc → ms ≤ 0 →
      runComponent (some mesh) pc ms s seed threaded sched = some []) ∧
    (pc < 0 → runComponent (some mesh) pc ms s seed threaded sched = none) := by
  constructor
  · intro hpc hms
    have h0 : (0 : ℤ) ≤
        (if pc > (mesh.vertices.length : ℤ) then (mesh.vertices.length : ℤ) else pc) := by
      split <;> omega
    have hle :
        (if pc > (mesh.vertices.length : ℤ) then (mesh.vertices.length : ℤ) else pc)
          ≤ (mesh.vertices.length : ℤ) := by
      split <;> omega
    have hms0 : ms.toNat = 0 := by omega
    simp only [runComponent, randomSample_ok seed mesh.vertices _ h0 hle, hms0]
    congr 1
    unfold makeDrainMeshPaths
    split
    · exact foldl_appendDrain_zero mesh s _ _
    · exact foldl_appendDrain_zero mesh s _ _
  · intro hneg
    have hif :
        (if pc > (mesh.vertices.length : ℤ) then (mesh.vertices.length : ℤ) else pc) = pc := by
      split <;> omega
    have hnone : randomSample seed mesh.vertices pc = none := by
      unfold randomSample
      rw [if_neg]
      rintro ⟨h1, -⟩
      omega
    simp only [runComponent, hif, hnone]

/-- C3 amended, witness: a nonpositive step budget yields the empty
output, and a negative particle count crashes sampling instead of being
rejected at the boundary. -/
theorem C3_amended_witness :
    runComponent (some slopeGeo) 3 (-2) 1 11 false [] = some [] ∧
    runComponent (some slopeGeo) (-1) 5 1 7 false [] = none :=
  ⟨(C3_amended_not_rejected slopeGeo 3 (-2) 1 11 false []).1 (by decide) (by decide),
   (C3_amended_not_rejected slopeGeo (-1) 5 1 7 false []).2 (by decide)⟩

/-- C4 counterexample: the claim says that on a flat horizontal surface
NoDescentDirection fires on the first step, the trail has at most one
point and no path is emitted.  The script has no descent-direction check:
on the flat plane a particle records a point every iteration (equal
elevation passes the strict uphill test of line 49) and the three-point
path IS emitted. -/
theorem C4_flat_path_emitted :
    (drainPath flatGeo 3 1 ⟨0, 0, 5⟩).length = 3 ∧
    makeDrainMeshPaths flatGeo [⟨0, 0, 5⟩] 3 1 false []
      = [[⟨0, 0, 0⟩, ⟨1, 0, 0⟩, ⟨2, 0, 0⟩]] := by
  constructor <;> with_unfolding_all decide

/-- C4 amended: on a flat horizontal surface there is no
NoDescentDirection termination — for any start point the particle records
one point per iteration, all at elevation 0 (moving in the arbitrary
in-plane direction the undefined rotation leaves), the trail has exactly
maxSteps points, and for maxSteps at least 2 the path is emitted. -/
theorem C4_amended_flat_keeps_stepping (q : Pt) (s : ℚ) (fuel : ℕ) (hfuel : 1 ≤ fuel) :
    (drainPath flatGeo (fuel + 1) s q).length = fuel + 1 ∧
    (∀ p ∈ drainPath flatGeo (fuel + 1) s q, p.z = 0) ∧
    makeDrainMeshPaths flatGeo [q] (fuel + 1) s false []
      = [drainPath flatGeo (fuel + 1) s q] := by
  have hdp : drainPath flatGeo (fuel + 1) s q
      = planeTrail ⟨1, 0, 0⟩ s (planeProj ⟨0, 0, 1⟩ q) (fuel + 1) :=
    planeGeo_drainPath ⟨0, 0, 1⟩ ⟨1, 0, 0⟩ [] s
      (by norm_num [Pt.dot]) (by norm_num [Pt.dot]) (by simp) q fuel
  have hz0 : (planeProj ⟨0, 0, 1⟩ q).z = 0 := by
    cases q with
    | mk a b c => simp [planeProj, Pt.dot, Pt.sub, Pt.smul]
  refine ⟨?_, ?_, ?_⟩
  · rw [hdp]
    exact planeTrail_length _ _ _ _
  · intro p hp
    rw [hdp] at hp
    rw [planeTrail_z ⟨1, 0, 0⟩ s rfl _ _ _ hp, hz0]
  · have hlen : 1 < (drainPath flatGeo (fuel + 1) s q).length := by
      rw [hdp, planeTrail_length]
      omega
    simp [makeDrainMeshPaths, appendDrain, hlen]

/-- C4 amended, witness: a concrete flat-plane run of three steps records
three points at elevation 0 and emits the path. -/
theorem C4_amended_witness :
    (drainPath flatGeo 3 1 ⟨2, 3, 4⟩).length = 3 ∧
    (⟨3, 3, 0⟩ : Pt).z = 0 ∧
    makeDrainMeshPaths flatGeo [⟨2, 3, 4⟩] 3 1 false []
      = [drainPath flatGeo 3 1 ⟨2, 3, 4⟩] :=
  ⟨(C4_amended_flat_keeps_stepping ⟨2, 3, 4⟩ 1 2 (by decide)).1,
   (C4_amended_flat_keeps_stepping ⟨2, 3, 4⟩ 1 2 (by decide)).2.1 ⟨3, 3, 0⟩
     (by with_unfolding_all decide),
   (C4_amended_flat_keeps_stepping ⟨2, 3, 4⟩ 1 2 (by decide)).2.2⟩

/-- C5 counterexample: the claim's count is off by one — it says a
particle on the sloped plane with maxSteps = 10 and stepLength = 1
produces 11 recorded points in total (the first accepted point plus 10
more).  The loop of line 41 runs exactly maxSteps iterations and records
at most one point per iteration, so the trail has exactly 10 points. -/
theorem C5_ten_points_not_eleven :
    (drainPath slopeGeo 10 1 ⟨0, 0, 0⟩).length = 10 ∧
    (drainPath slopeGeo 10 1 ⟨0, 0, 0⟩).length ≠ 11 := by
  constructor <;> with_unfolding_all decide

/-- C5 amended: on the sloped plane with maxSteps = 10 and stepLength = 1
every particle produces a path of exactly 10 recorded points in total
(the first accepted point plus 9 more), with strictly decreasing
z-values, terminating because the step budget is exhausted. -/
theorem C5_amended_slope_run (q : Pt) :
    (drainPath slopeGeo 10 1 q).length = 10 ∧
    List.Chain' (fun a b : Pt => b.z < a.z) (drainPath slopeGeo 10 1 q) ∧
    makeDrainMeshPaths slopeGeo [q] 10 1 false [] = [drainPath slopeGeo 10 1 q] := by
  have hdp : drainPath slopeGeo 10 1 q
      = planeTrail ⟨4/5, 0, -3/5⟩ 1 (planeProj ⟨3/5, 0, 4/5⟩ q) 10 :=
    planeGeo_drainPath ⟨3/5, 0, 4/5⟩ ⟨4/5, 0, -3/5⟩ [⟨0, 0, 0⟩, ⟨100, 0, -75⟩] 1
      (by norm_num [Pt.dot]) (by norm_num [Pt.dot]) (by norm_num) q 9
  refine ⟨?_, ?_, ?_⟩
  · rw [hdp]
    exact planeTrail_length _ _ _ _
  · rw [hdp]
    exact planeTrail_chain_lt _ _ (by norm_num) _ _
  · have hlen : 1 < (drainPath slopeGeo 10 1 q).length := by
      rw [hdp, planeTrail_length]
      omega
    simp [makeDrainMeshPaths, appendDrain, hlen]

/-- C7: in EITHER execution mode — sequential, or threaded under any
completion schedule that runs each parallel task once — every emitted
path has at least two points (line 59 drops shorter trails silently),
and the number of output paths is at most min particleCount N, because
each of the min particleCount N sampled start points contributes at most
one path. -/
theorem C7_path_bounds (mesh : MeshGeo) (pc ms : ℤ) (s : ℚ) (seed : ℕ)
    (threaded : Bool) (sched : List ℕ) (paths : List (List Pt))
    (hpc : 0 ≤ pc) (hnd : sched.Nodup)
    (h : runComponent (some mesh) pc ms s seed threaded sched = some paths) :
    (∀ path ∈ paths, 2 ≤ path.length) ∧
    paths.length ≤ min pc.toNat mesh.vertices.length := by
  have h0 : (0 : ℤ) ≤
      (if pc > (mesh.vertices.length : ℤ) then (mesh.vertices.length : ℤ) else pc) := by
    split <;> omega
  have hle :
      (if pc > (mesh.vertices.length : ℤ) then (mesh.vertices.length : ℤ) else pc)
        ≤ (mesh.vertices.length : ℤ) := by
    split <;> omega
  simp only [runComponent, randomSample_ok seed mesh.vertices _ h0 hle,
    Option.some_inj] at h
  subst h
  constructor
  · intro path hmem
    rcases mem_makeDrainMeshPaths mesh _ ms.toNat s threaded sched path hmem
      with ⟨pt, -, hlen⟩
    omega
  · have h1 := length_makeDrainMeshPaths mesh
      (sampleAux seed
        (if pc > (mesh.vertices.length : ℤ) then (mesh.vertices.length : ℤ) else pc).toNat
        mesh.vertices) ms.toNat s threaded sched hnd
    have h2 := sampleAux_length
      (if pc > (mesh.vertices.length : ℤ) then (mesh.vertices.length : ℤ) else pc).toNat
      seed mesh.vertices
    have h3 := clamp_toNat pc mesh.vertices.length hpc
    omega

/-- C7 witness: a concrete THREADED component run, whose two tasks
complete in reversed order, still emits two paths of two points each,
within the min particleCount N bound. -/
theorem C7_witness :
    2 ≤ ([⟨100, 0, -75⟩, ⟨504/5, 0, -378/5⟩] : List Pt).length ∧
    ([[⟨100, 0, -75⟩, ⟨504/5, 0, -378/5⟩], [⟨0, 0, 0⟩, ⟨4/5, 0, -3/5⟩]] :
        List (List Pt)).length ≤ min (5 : ℤ).toNat slopeGeo.vertices.length :=
  ⟨(C7_path_bounds slopeGeo 5 2 1 3 true [1, 0]
      [[⟨100, 0, -75⟩, ⟨504/5, 0, -378/5⟩], [⟨0, 0, 0⟩, ⟨4/5, 0, -3/5⟩]]
      (by decide) (by decide) (by with_unfolding_all decide)).1
      [⟨100, 0, -75⟩, ⟨504/5, 0, -378/5⟩] (by with_unfolding_all decide),
   (C7_path_bounds slopeGeo 5 2 1 3 true [1, 0]
      [[⟨100, 0, -75⟩, ⟨504/5, 0, -378/5⟩], [⟨0, 0, 0⟩, ⟨4/5, 0, -3/5⟩]]
      (by decide) (by decide) (by with_unfolding_all decide)).2⟩

/-- C8: the sampler (clamp of lines 75-76 plus the seeded sampling model
of lines 77-78) succeeds without error even when particleCount exceeds
the candidate count, returns exactly min particleCount N points, draws
them without replacement from the candidate list (hence distinct for
duplicate-free candidates), and — being a pure function of seed and
candidate ordering — the same seed and candidates give the identical
selection. -/
theorem C8_sampler_contract (mesh : MeshGeo) (pc : ℤ) (seed : ℕ) (hpc : 0 ≤ pc)
    (hnd : mesh.vertices.Nodup) :
    randomSample seed mesh.vertices
        (if pc > (mesh.vertices.length : ℤ) then (mesh.vertices.length : ℤ) else pc)
      = some (sampleAux seed
          (if pc > (mesh.vertices.length : ℤ) then (mesh.vertices.length : ℤ) else pc).toNat
          mesh.vertices) ∧
    (sampleAux seed
        (if pc > (mesh.vertices.length : ℤ) then (mesh.vertices.length : ℤ) else pc).toNat
        mesh.vertices).length = min pc.toNat mesh.vertices.length ∧
    List.Subperm
      (sampleAux seed
        (if pc > (mesh.vertices.length : ℤ) then (mesh.vertices.length : ℤ) else pc).toNat
        mesh.vertices) mesh.vertices ∧
    (sampleAux seed
        (if pc > (mesh.vertices.length : ℤ) then (mesh.vertices.length : ℤ) else pc).toNat
        mesh.vertices).Nodup ∧
    randomSample seed mesh.vertices
        (if pc > (mesh.vertices.length : ℤ) then (mesh.vertices.length : ℤ) else pc)
      = randomSample seed mesh.vertices
        (if pc > (mesh.vertices.length : ℤ) then (mesh.vertices.length : ℤ) else pc) := by
  have h0 : (0 : ℤ) ≤
      (if pc > (mesh.vertices.length : ℤ) then (mesh.vertices.length : ℤ) else pc) := by
    split <;> omega
  have hle :
      (if pc > (mesh.vertices.length : ℤ) then (mesh.vertices.length : ℤ) else pc)
        ≤ (mesh.vertices.length : ℤ) := by
    split <;> omega
  refine ⟨randomSample_ok _ _ _ h0 hle, ?_, sampleAux_subperm _ _ _,
    sampleAux_nodup _ _ _ hnd, rfl⟩
  rw [sampleAux_length, clamp_toNat pc _ hpc]
  omega

/-- C8 witness: an over-request of 5 particles from the two slope-plane
vertices is clamped to 2, succeeds, and samples without replacement. -/
theorem C8_witness :
    randomSample 3 slopeGeo.vertices
        (if (5 : ℤ) > (slopeGeo.vertices.length : ℤ) then (slopeGeo.vertices.length : ℤ) else 5)
      = some (sampleAux 3
          (if (5 : ℤ) > (slopeGeo.vertices.length : ℤ) then (slopeGeo.vertices.length : ℤ)
            else 5).toNat slopeGeo.vertices) ∧
    (sampleAux 3
        (if (5 : ℤ) > (slopeGeo.vertices.length : ℤ) then (slopeGeo.vertices.length : ℤ)
          else 5).toNat slopeGeo.vertices).length = min (5 : ℤ).toNat slopeGeo.vertices.length ∧
    List.Subperm
      (sampleAux 3
        (if (5 : ℤ) > (slopeGeo.vertices.length : ℤ) then (slopeGeo.vertices.length : ℤ)
          else 5).toNat slopeGeo.vertices) slopeGeo.vertices ∧
    (sampleAux 3
        (if (5 : ℤ) > (slopeGeo.vertices.length : ℤ) then (slopeGeo.vertices.length : ℤ)
          else 5).toNat slopeGeo.vertices).Nodup ∧
    randomSample 3 slopeGeo.vertices
        (if (5 : ℤ) > (slopeGeo.vertices.length : ℤ) then (slopeGeo.vertices.length : ℤ) else 5)
      = randomSample 3 slopeGeo.vertices
        (if (5 : ℤ) > (slopeGeo.vertices.length : ℤ) then (slopeGeo.vertices.length : ℤ) else 5) :=
  C8_sampler_contract slopeGeo 5 3 (by decide) (by with_unfolding_all decide)
